import Mathlib

/-!
Shallow embedding of `src/game_video.cpp` (repository AOV-video-analyzer).

Conventions used throughout this development:

* `cv::Mat` grayscale images are modelled by `Image`: explicit row/column
  counts plus a pixel function `Nat → Nat → Nat` (row index first, matching
  `at<uchar>(iy, ix)` in the source).
* `cv::Point` and timestamps are `ℤ`; pixel values are `Nat` (uchar).
* C++ `double` arithmetic is modelled over `ℚ` where the source only
  compares small integer ratios (digit matching), and over `ℝ` where
  transcendental functions appear (joystick estimation).  `sqrt` comparisons
  in `assign_hero` are modelled by comparing squared distances, which agrees
  with the source because `sqrt` is strictly monotone and the distances that
  occur (screen coordinates) are far apart relative to double rounding.
* The parallel vectors `heroes_list_`, `last_updated_`, `appearances_` are
  index-synchronized in every operation of the source (pushed together,
  erased together, updated together), so they are modelled as a single list
  of `TrackedHero` records.
* External OpenCV primitives (contour extraction, Hough circle detection,
  binarization) are inputs to the embedded functions, as the specification
  declares them external collaborators.
-/

namespace GameVideo

/-- A grayscale image: `rows × cols` pixel grid, pixel access `data iy ix`
mirroring `mat.at<uchar>(iy, ix)` of the source. -/
structure Image where
  rows : Nat
  cols : Nat
  data : Nat → Nat → Nat

instance : Inhabited Image := ⟨⟨0, 0, fun _ _ => 0⟩⟩

/-- A `cv::Rect`: `x`,`y` upper-left corner, width `w`, height `h`.
All boxes produced by `boundingRect` have nonnegative coordinates, so `Nat`. -/
structure Rect where
  x : Nat
  y : Nat
  w : Nat
  h : Nat

/-- `(*src)(box)`: cropping a rectangle out of an image. -/
def cropImg (src : Image) (b : Rect) : Image :=
  ⟨b.h, b.w, fun iy ix => src.data (b.y + iy) (b.x + ix)⟩

/-- `cv::resize(..., INTER_NEAREST)` to `r × c`: nearest-neighbor sampling
`src[(iy * src.rows) / r][(ix * src.cols) / c]` (the floor formula used by
OpenCV nearest-neighbor interpolation). -/
def resizeNN (src : Image) (r c : Nat) : Image :=
  ⟨r, c, fun iy ix => src.data (iy * src.rows / r) (ix * src.cols / c)⟩

/-- The pixel-disagreement count of `detect_number_roi` (lines 139-152): a
pixel is an error when one image is foreground `0xff` and the other is
background `0`; pixel equality counts as agreement.  The loop runs over the
dimensions of the (resized) region, which equal the sample dimensions. -/
def errCount (roi sample : Image) : Nat :=
  (List.range sample.rows).foldl (fun acc iy =>
    (List.range sample.cols).foldl (fun acc2 ix =>
      if (roi.data iy ix = 255 ∧ sample.data iy ix = 0) ∨
         (roi.data iy ix = 0 ∧ sample.data iy ix = 255) then acc2 + 1 else acc2)
      acc) 0

/-- One iteration `i` of the template loop of `detect_number_roi`
(lines 119-163).  State: `(min_avg_err, number_detected)`.  The h/w-ratio
gate, the nearest-neighbor resample, the normalized disagreement score and
the strict-minimum update are taken verbatim from the source; `1.2`, `0.8`
are the rational values of the double literals. -/
def roiStep (src : Image) (box : Rect) (samples : List Image)
    (st : ℚ × ℤ) (i : Nat) : ℚ × ℤ :=
  let sample := samples.getD i default
  let src_roi := cropImg src box
  let hw_ratio_roi : ℚ := (src_roi.rows : ℚ) / (src_roi.cols : ℚ)
  let hw_ratio_sample : ℚ := (sample.rows : ℚ) / (sample.cols : ℚ)
  if hw_ratio_roi / hw_ratio_sample > 6/5 ∨ hw_ratio_roi / hw_ratio_sample < 4/5 then st
  else
    let resized := resizeNN src_roi sample.rows sample.cols
    let avg_err : ℚ := (errCount resized sample : ℚ) / ((sample.cols * sample.rows : ℕ) : ℚ)
    if avg_err < st.1 then (avg_err, (i : ℤ)) else st

/-- `GameVideoAnalyzer::detect_number_roi` (lines 115-165): scan the ten
templates in order starting from `(avg_err_thres, -1)`; return the detected
digit, `-1` when no template beat the threshold. -/
def detect_number_roi (src : Image) (box : Rect) (samples : List Image)
    (avg_err_thres : ℚ) : ℤ :=
  ((List.range 10).foldl (roiStep src box samples) (avg_err_thres, -1)).2

/-- The size gate of `detect_number_fixed` (lines 184-202).  `sr` is the
`Vec4d (height_min, height_max, width_min, width_max)`; the all-zero vector
selects the ratio mode with the double literals `1.3, 1.6, 4.1, 9.3`. -/
def sizeOk (src : Image) (b : Rect) (sr : ℚ × ℚ × ℚ × ℚ) : Bool :=
  if sr = (0, 0, 0, 0) then
    !(decide ((b.h : ℚ) > (src.rows : ℚ) / (13/10)) ||
      decide ((b.h : ℚ) < (src.rows : ℚ) / (8/5))) &&
    !(decide ((b.w : ℚ) > (src.cols : ℚ) / (41/10)) ||
      decide ((b.w : ℚ) < (src.cols : ℚ) / (93/10)))
  else
    !(decide ((b.h : ℚ) > sr.2.1) || decide ((b.h : ℚ) < sr.1)) &&
    !(decide ((b.w : ℚ) > sr.2.2.2) || decide ((b.w : ℚ) < sr.2.2.1))

/-- `std::map<int,int>::insert` on an association list kept sorted by key:
inserts in key order and is a no-op when the key is already present
(first insertion wins), exactly the `std::map` semantics used by
`coord_num_map.insert` (line 206). -/
def mapInsert : List (Nat × ℤ) → Nat × ℤ → List (Nat × ℤ)
  | [], kv => [kv]
  | (k, v) :: rest, kv =>
    if kv.1 < k then kv :: (k, v) :: rest
    else if kv.1 = k then (k, v) :: rest
    else (k, v) :: mapInsert rest kv

/-- One iteration of the contour loop of `detect_number_fixed`
(lines 178-208): apply the size gate, classify, and record the
`(x, digit)` pair when a digit was detected. -/
def fixedStep (src : Image) (samples : List Image) (thres : ℚ)
    (sr : ℚ × ℚ × ℚ × ℚ) (m : List (Nat × ℤ)) (b : Rect) : List (Nat × ℤ) :=
  if sizeOk src b sr = true then
    let nd := detect_number_roi src b samples thres
    if nd ≠ -1 then mapInsert m (b.x, nd) else m
  else m

/-- `GameVideoAnalyzer::detect_number_fixed` (lines 167-216).  `src` is the
already-binarized crop (color conversion and thresholding are the external
binarize primitive); `boxes` are the bounding rectangles of the externally
extracted contours.  The recognized digits, keyed by x coordinate in the
sorted map, are folded most-significant-first (lines 210-215). -/
def detect_number_fixed (src : Image) (boxes : List Rect) (samples : List Image)
    (thres : ℚ) (sr : ℚ × ℚ × ℚ × ℚ) : ℤ :=
  ((boxes.foldl (fixedStep src samples thres sr) []).foldl
    (fun cooldown kv => cooldown * 10 + kv.2) 0)

/-- The `(x, digit)` pairs of `detect_number_fixed` that pass the size gate
and are recognized, in contour order (the insertion order into the map). -/
def recognizedPairs (src : Image) (boxes : List Rect) (samples : List Image)
    (thres : ℚ) (sr : ℚ × ℚ × ℚ × ℚ) : List (Nat × ℤ) :=
  boxes.filterMap (fun b =>
    if sizeOk src b sr = true then
      let nd := detect_number_roi src b samples thres
      if nd ≠ -1 then some (b.x, nd) else none
    else none)

/-- The adjacency test of the two-digit grouping in `track_hero` (line 423):
`abs(p1.y - p2.y) < 3 && abs(p1.x - p2.x) < 15 && abs(p1.x - p2.x) > 8`. -/
def pairCond (p1 p2 : ℤ × ℤ) : Bool :=
  decide ((p1.2 - p2.2).natAbs < 3) &&
  decide ((p1.1 - p2.1).natAbs < 15) && decide ((p1.1 - p2.1).natAbs > 8)

/-- The composed two-digit value of `track_hero` (line 424):
`(p1.x > p2.x) ? num1 + 10 * num2 : num2 + 10 * num1`. -/
def composeLevel (p1 : ℤ × ℤ) (n1 : ℤ) (p2 : ℤ × ℤ) (n2 : ℤ) : ℤ :=
  if p1.1 > p2.1 then n1 + 10 * n2 else n2 + 10 * n1

/-- The anchor passed to `assign_hero` for a composed pair (line 428):
`p1.x > p2.x ? p1 : p2`, i.e. the rightmost of the two points. -/
def composeAnchor (p1 p2 : ℤ × ℤ) : ℤ × ℤ :=
  if p1.1 > p2.1 then p1 else p2

/-- The inner `j` loop of the grouping stage (lines 419-434): scan the
readings after index `i` and return the absolute index and reading of the
first partner that passes `pairCond` with a composed value `≤ 15`.  A `j`
that passes `pairCond` but composes to more than 15 is passed over and the
scan continues, exactly as in the source (the `break` sits inside the
`hero_level <= 15` test). -/
def findPairAux (p1 : ℤ × ℤ) (n1 : ℤ) :
    List ((ℤ × ℤ) × ℤ) → Nat → Option (Nat × ((ℤ × ℤ) × ℤ))
  | [], _ => none
  | r :: rest, j =>
    if pairCond p1 r.1 = true ∧ composeLevel p1 n1 r.1 r.2 ≤ 15 then some (j, r)
    else findPairAux p1 n1 rest (j + 1)

/-- The outer `i` loop of the grouping stage (lines 407-438).  `rs` is the
full `rect_num_vec`; the second argument is the suffix `rs.drop i` being
walked; `flags` is `is_single_digit`.  Output: the `(level, anchor)`
arguments of the `assign_hero` calls, in call order.  Note the source only
consults `is_single_digit[i]` in the outer loop, so an already-consumed `j`
can still be chosen as a partner — this is mirrored faithfully. -/
def composeGoAux (rs : List ((ℤ × ℤ) × ℤ)) :
    List ((ℤ × ℤ) × ℤ) → Nat → List Bool → List (ℤ × (ℤ × ℤ))
  | [], _, _ => []
  | r :: rest, i, flags =>
    if flags.getD i true = false then composeGoAux rs rest (i + 1) flags
    else
      match findPairAux r.1 r.2 (rs.drop (i + 1)) (i + 1) with
      | some (j, r2) =>
        (composeLevel r.1 r.2 r2.1 r2.2, composeAnchor r.1 r2.1) ::
          composeGoAux rs rest (i + 1) ((flags.set i false).set j false)
      | none =>
        if r.2 > 0 then (r.2, r.1) :: composeGoAux rs rest (i + 1) flags
        else composeGoAux rs rest (i + 1) flags

/-- The digit-grouping stage of `track_hero` (lines 406-438) as a function
from the detected `(point, digit)` readings to the `(level, anchor)` pairs
handed to `assign_hero`, in order. -/
def composeReadings (rs : List ((ℤ × ℤ) × ℤ)) : List (ℤ × (ℤ × ℤ)) :=
  composeGoAux rs rs 0 (List.replicate rs.length true)

/-- One tracked hero: the `HeroStatus` stored in `heroes_list_` together
with its slots of the index-parallel vectors `last_updated_` and
`appearances_`. -/
structure TrackedHero where
  hero_id : Nat
  position : ℤ × ℤ
  level : ℤ
  last_updated : ℤ
  appearances : ℤ
deriving DecidableEq

instance : Inhabited TrackedHero := ⟨⟨0, (0, 0), 0, 0, 0⟩⟩

/-- The per-frame `HeroStatus` records pushed into `hero_status_list`. -/
structure HeroStatus where
  hero_id : Nat
  position : ℤ × ℤ
  level : ℤ
deriving DecidableEq

/-- The tracking state of `GameVideoAnalyzer`: `heroes_list_` (fused with
`last_updated_` and `appearances_`), the id counter `hero_id_`, and
`is_heroes_list_initialized_`. -/
structure Tracker where
  heroes_list : List TrackedHero
  hero_id_ : Nat
  is_heroes_list_initialized : Bool
deriving DecidableEq

/-- The constructor `GameVideoAnalyzer::GameVideoAnalyzer` (lines 83-106):
empty lists, `hero_id_ = 0`, not yet initialized. -/
def initialTracker : Tracker := ⟨[], 0, false⟩

/-- Squared euclidean distance between two points.  The source compares
`sqrt(dx*dx + dy*dy) < threshold` in doubles; comparing squares against the
squared threshold is equivalent since `sqrt` is strictly monotone. -/
def distSq (p q : ℤ × ℤ) : ℤ :=
  (p.1 - q.1) * (p.1 - q.1) + (p.2 - q.2) * (p.2 - q.2)

/-- The nearest-hero scan of `assign_hero` (lines 283-292): walk the list,
keep the first index realizing the strictly smallest distance below the
threshold (`dist_min` starts at 20, modelled squared as 400). -/
def findNearestAux (pos : ℤ × ℤ) :
    List TrackedHero → Nat → ℤ → Option Nat → Option Nat
  | [], _, _, best => best
  | h :: rest, i, dist_min, best =>
    if distSq pos h.position < dist_min then
      findNearestAux pos rest (i + 1) (distSq pos h.position) (some i)
    else findNearestAux pos rest (i + 1) dist_min best

/-- `i_min` of `assign_hero`: `none` models `i_min == -1`. -/
def findNearest (pos : ℤ × ℤ) (heroes : List TrackedHero) : Option Nat :=
  findNearestAux pos heroes 0 400 none

/-- The new-hero block repeated in `assign_hero` (lines 277-281, 300-304,
325-329): push `{hero_id_++, position, level}` with `last_updated = ts` and
`appearances = 1`, and return the pushed `HeroStatus`. -/
def createHero (level : ℤ) (position : ℤ × ℤ) (ts : ℤ) (t : Tracker) :
    Tracker × HeroStatus :=
  ({ t with
      heroes_list := t.heroes_list ++ [⟨t.hero_id_, position, level, ts, 1⟩],
      hero_id_ := t.hero_id_ + 1 },
   ⟨t.hero_id_, position, level⟩)

/-- `GameVideoAnalyzer::assign_hero` (lines 274-333).  Branch order follows
the source: uninitialized list → create; no neighbor within 20px, or the
nearest neighbor unseen for more than 3000ms, or its level above the new
level → create; equal level → merge; level + 1 → merge with level bump;
otherwise → create. -/
def assign_hero (level : ℤ) (position : ℤ × ℤ) (ts : ℤ) (t : Tracker) :
    Tracker × HeroStatus :=
  if t.is_heroes_list_initialized = false then createHero level position ts t
  else
    match findNearest position t.heroes_list with
    | none => createHero level position ts t
    | some i_min =>
      let h := t.heroes_list.getD i_min default
      if ts - h.last_updated > 3000 then createHero level position ts t
      else if level < h.level then createHero level position ts t
      else if level = h.level then
        let h2 : TrackedHero :=
          { h with position := position, last_updated := ts,
                   appearances := h.appearances + 1 }
        ({ t with heroes_list := t.heroes_list.set i_min h2 },
         ⟨h.hero_id, position, level⟩)
      else if level = h.level + 1 then
        let h2 : TrackedHero :=
          { h with position := position, level := level, last_updated := ts,
                   appearances := h.appearances + 1 }
        ({ t with heroes_list := t.heroes_list.set i_min h2 },
         ⟨h.hero_id, position, level⟩)
      else createHero level position ts t

/-- The eviction loop of `delete_inactive_heroes` (lines 459-470), erase
bug included: the source erases `heroes_list_.begin() + i` inside a loop
that still increments `i`, so the element that slides into the erased slot
is never tested.  That is exactly the `f :: pruneHeroes ... rest` branch. -/
def pruneHeroes (ts inactive_time num_app : ℤ) : List TrackedHero → List TrackedHero
  | [] => []
  | [e] =>
    if ts - e.last_updated > inactive_time ∧ e.appearances < num_app then [] else [e]
  | e :: f :: rest =>
    if ts - e.last_updated > inactive_time ∧ e.appearances < num_app then
      f :: pruneHeroes ts inactive_time num_app rest
    else e :: pruneHeroes ts inactive_time num_app (f :: rest)

/-- `GameVideoAnalyzer::delete_inactive_heroes` (lines 458-480). -/
def delete_inactive_heroes (ts inactive_time num_app : ℤ) (t : Tracker) : Tracker :=
  { t with heroes_list := pruneHeroes ts inactive_time num_app t.heroes_list }

/-- One tracker-mutating event: an `assign_hero` call, a
`delete_inactive_heroes` call, or the end of a `track_hero` call (which
sets `is_heroes_list_initialized_`, lines 440-442). -/
inductive Step where
  | assign (level : ℤ) (position : ℤ × ℤ) (ts : ℤ)
  | evict (ts inactive_time num_app : ℤ)
  | endFrame

/-- Apply one event to the tracker state. -/
def applyStep (s : Step) (t : Tracker) : Tracker :=
  match s with
  | .assign l p ts => (assign_hero l p ts t).1
  | .evict ts it na => delete_inactive_heroes ts it na t
  | .endFrame => { t with is_heroes_list_initialized := true }

/-- The identity handed out by an event, if it created a hero: creations
are exactly the steps that bump `hero_id_`, and they hand out the old
counter value. -/
def stepTrace (s : Step) (t : Tracker) : List Nat :=
  if (applyStep s t).hero_id_ = t.hero_id_ + 1 then [t.hero_id_] else []

/-- Run a sequence of events, collecting the created identities in order. -/
def runAux : List Step → Tracker → Tracker × List Nat
  | [], t => (t, [])
  | s :: rest, t =>
    let tr := runAux rest (applyStep s t)
    (tr.1, stepTrace s t ++ tr.2)

/-- Run a sequence of events from the freshly constructed analyzer. -/
def runTracker (steps : List Step) : Tracker × List Nat :=
  runAux steps initialTracker

/-- Hardcoded joystick search region corner (lines 87-88). -/
def joystick_lu : ℤ × ℤ := (58, 411)

/-- Hardcoded joystick axis point (lines 89-90). -/
def joystick_axis : ℤ × ℤ := (206, 559)

/-- `std::atan2 y x`, modelled exactly as the argument of the complex
number `x + y i`. -/
noncomputable def atan2 (y x : ℝ) : ℝ := Complex.arg ⟨x, y⟩

/-- `GameVideoAnalyzer::estimate_joystick_angle` (lines 218-235).  Circle
detection (`cv::HoughCircles`) is the external collaborator: `circles` is
its output, already converted to the integer center offsets produced by the
`cv::Point` construction at line 228.  Returns the angle (sentinel `666.0`
when no circle was found) and the updated `dist_list_`: when a circle is
found, exactly one center-to-axis euclidean distance is appended
(line 231), and the angle is
`atan2(axis.y - center.y, center.x - axis.x) * 180 / 3.14159265`
from the first circle (line 232; `PI` is the source macro literal). -/
noncomputable def estimate_joystick_angle (circles : List (ℤ × ℤ)) (dist_list : List ℝ) :
    ℝ × List ℝ :=
  match circles with
  | [] => (666.0, dist_list)
  | c :: _ =>
    let center : ℤ × ℤ := (joystick_lu.1 + c.1, joystick_lu.2 + c.2)
    (atan2 ((joystick_axis.2 - center.2 : ℤ) : ℝ) ((center.1 - joystick_axis.1 : ℤ) : ℝ)
        * 180 / 3.14159265,
     dist_list ++ [Real.sqrt (((center.1 - joystick_axis.1 : ℤ) : ℝ) ^ 2 +
                              ((center.2 - joystick_axis.2 : ℤ) : ℝ) ^ 2)])

/-- The C++ conversion of a `double` to `int`: truncation toward zero. -/
noncomputable def cppTrunc (x : ℝ) : ℤ := if 0 ≤ x then ⌊x⌋ else ⌈x⌉

/-- `std::accumulate(begin, end, 0)` over a list of doubles (line 242).
The initial value `0` is an `int`, so the accumulator type is `int` and
every partial sum is truncated back to an integer — modelled verbatim. -/
noncomputable def cppAccumulateInt (l : List ℝ) : ℤ :=
  l.foldl (fun acc x => cppTrunc ((acc : ℝ) + x)) 0

/-- `GameVideoAnalyzer::estimate_js_axis_status` (lines 237-248).
`none` models the early return on an empty `dist_list_` (the out-params are
left unwritten); otherwise the mean (integer-truncated accumulate divided
by the count) and `sqrt(err_sum / (n - 1))` are written.  `n - 1` is the
`size_t` subtraction of the source; for a singleton list the source divides
by zero — real division by zero is `0` here, so statements about the
singleton case only use the shape of the guard, not this value. -/
noncomputable def estimate_js_axis_status (dist_list : List ℝ) : Option (ℝ × ℝ) :=
  if dist_list.isEmpty then none
  else
    let mean : ℝ := ((cppAccumulateInt dist_list : ℤ) : ℝ) / (dist_list.length : ℝ)
    let err_sum : ℝ := (dist_list.map (fun x => (x - mean) ^ 2)).sum
    some (mean, Real.sqrt (err_sum / ((dist_list.length - 1 : ℕ) : ℝ)))

/-- Frame 1 of the tracker scenario of the specification: level-5 reading
at (100,100), timestamp 0, on the fresh analyzer. -/
def c3_s1 : Tracker := (assign_hero 5 (100, 100) 0 initialTracker).1

/-- Frame 2: same position and level at timestamp 500 (after the end of
frame 1 set the initialized flag). -/
def c3_s2 : Tracker := (assign_hero 5 (100, 100) 500 (applyStep .endFrame c3_s1)).1

/-- Frame 3: level 6 at (102,101), timestamp 1000. -/
def c3_s3 : Tracker := (assign_hero 6 (102, 101) 1000 (applyStep .endFrame c3_s2)).1

/-- Frame 4: level 6 at (102,101), timestamp 4200. -/
def c3_s4 : Tracker := (assign_hero 6 (102, 101) 4200 (applyStep .endFrame c3_s3)).1

/-- A concrete 1×4 binary digit template used by witnesses: template `i`
shows the binary encoding of `i` (pixel 255 where the bit is set). -/
def witTpl (i : Nat) : Image :=
  ⟨1, 4, fun _ ix => if i / 2 ^ ix % 2 = 1 then 255 else 0⟩

/-- A concrete ten-template set with pairwise different bitmaps. -/
def witTpls : List Image := (List.range 10).map witTpl

/-- A concrete 1×8 binarized source image showing digit 3 at x = 0 and
digit 1 at x = 4. -/
def witSrc : Image :=
  ⟨1, 8, fun iy ix => if ix < 4 then (witTpl 3).data iy ix else (witTpl 1).data iy (ix - 4)⟩

/-- The two contour bounding boxes of `witSrc`, delivered in descending-x
order to exercise the sorting of the coordinate map. -/
def witBoxes : List Rect := [⟨4, 0, 4, 1⟩, ⟨0, 0, 4, 1⟩]

/-- The joystick angle computed from any circle is bounded far below the
sentinel 666: the complex argument lies in [-π, π] and π ≤ 4, so the
degree value lies within ±(4·180/3.14159265) < 666. -/
theorem atan2_deg_ne_sentinel (y x : ℝ) : atan2 y x * 180 / 3.14159265 ≠ 666 := by
  have h1 : |Complex.arg ⟨x, y⟩| ≤ Real.pi := Complex.abs_arg_le_pi _
  have h2 : Real.pi ≤ 4 := Real.pi_le_four
  rw [abs_le] at h1
  rw [atan2]
  intro hco
  rw [div_eq_iff (by norm_num : (3.14159265 : ℝ) ≠ 0)] at hco
  norm_num at hco
  nlinarith [h1.1, h1.2]

/-- A fold whose step fixes every accumulator is the identity. -/
theorem foldl_fixed {α β : Type} (f : α → β → α) (l : List β) (a : α)
    (h : ∀ x ∈ l, ∀ acc, f acc x = acc) : l.foldl f a = a := by
  induction l generalizing a with
  | nil => rfl
  | cons b bs ih =>
    rw [List.foldl_cons, h b (by simp)]
    exact ih a (fun x hx acc => h x (by simp [hx]) acc)

/-- Folds of pointwise-equal step functions agree. -/
theorem foldl_congr_mem {α β : Type} (f g : α → β → α) (l : List β) (a : α)
    (h : ∀ acc, ∀ x ∈ l, f acc x = g acc x) : l.foldl f a = l.foldl g a := by
  induction l generalizing a with
  | nil => rfl
  | cons b bs ih =>
    rw [List.foldl_cons, List.foldl_cons, h a b (by simp)]
    exact ih (g a b) (fun acc x hx => h acc x (by simp [hx]))

/-- A region whose pixels agree with the sample on the scanned grid has
disagreement count zero. -/
theorem errCount_eq_zero (roi sample : Image)
    (h : ∀ iy < sample.rows, ∀ ix < sample.cols, roi.data iy ix = sample.data iy ix) :
    errCount roi sample = 0 := by
  rw [errCount]
  apply foldl_fixed
  intro iy hiy acc
  apply foldl_fixed
  intro ix hix acc2
  rw [List.mem_range] at hiy hix
  rw [h iy hiy ix hix, if_neg]
  rintro (⟨ha, hb⟩ | ⟨ha, hb⟩) <;> omega

/-- The disagreement count only looks at pixels inside the scanned grid. -/
theorem errCount_congr (r1 r2 sample : Image)
    (h : ∀ iy < sample.rows, ∀ ix < sample.cols, r1.data iy ix = r2.data iy ix) :
    errCount r1 sample = errCount r2 sample := by
  rw [errCount, errCount]
  apply foldl_congr_mem
  intro acc iy hiy
  apply foldl_congr_mem
  intro acc2 ix hix
  rw [List.mem_range] at hiy hix
  rw [h iy hiy ix hix]

/-- A `detect_number_roi` iteration whose template disagrees with the
(region resized to it) keeps the running minimum strictly positive. -/
theorem roiStep_pos (src : Image) (box : Rect) (samples : List Image)
    (i : Nat) (st : ℚ × ℤ) (hst : 0 < st.1)
    (hne : errCount (resizeNN (cropImg src box) (samples.getD i default).rows
        (samples.getD i default).cols) (samples.getD i default) ≠ 0)
    (hdim : 0 < (samples.getD i default).rows ∧ 0 < (samples.getD i default).cols) :
    0 < (roiStep src box samples st i).1 := by
  rw [roiStep]
  dsimp only
  split
  · exact hst
  · split
    · dsimp only
      apply div_pos
      · exact_mod_cast Nat.pos_of_ne_zero hne
      · exact_mod_cast Nat.mul_pos hdim.2 hdim.1
    · exact hst

/-- A `detect_number_roi` iteration never changes a state whose running
minimum is zero: the score is nonnegative and the update is strict. -/
theorem roiStep_zero_fixed (src : Image) (box : Rect) (samples : List Image)
    (i : Nat) (st : ℚ × ℤ) (hst : st.1 = 0) :
    roiStep src box samples st i = st := by
  rw [roiStep]
  dsimp only
  split
  · rfl
  · rw [if_neg]
    rw [hst]
    exact not_lt.mpr (div_nonneg (Nat.cast_nonneg _) (Nat.cast_nonneg _))

/-- A zero running minimum is a fixed point of the whole template scan. -/
theorem roiFold_zero (src : Image) (box : Rect) (samples : List Image)
    (L : List Nat) (st : ℚ × ℤ) (hst : st.1 = 0) :
    L.foldl (roiStep src box samples) st = st := by
  induction L with
  | nil => rfl
  | cons i L ih => rw [List.foldl_cons, roiStep_zero_fixed _ _ _ _ _ hst]; exact ih

/-- Scanning only templates that disagree with the region keeps the running
minimum strictly positive. -/
theorem roiFold_pos (src : Image) (box : Rect) (samples : List Image) (d : Nat)
    (hne : ∀ i < d, errCount (resizeNN (cropImg src box) (samples.getD i default).rows
        (samples.getD i default).cols) (samples.getD i default) ≠ 0)
    (hdim : ∀ i < d, 0 < (samples.getD i default).rows ∧ 0 < (samples.getD i default).cols)
    (L : List Nat) (hL : ∀ i ∈ L, i < d) :
    ∀ st : ℚ × ℤ, 0 < st.1 → 0 < (L.foldl (roiStep src box samples) st).1 := by
  induction L with
  | nil => intro st h; exact h
  | cons i L ih =>
    intro st h
    rw [List.foldl_cons]
    have hi : i < d := hL i (by simp)
    exact ih (fun j hj => hL j (by simp [hj])) _
      (roiStep_pos _ _ _ _ _ h (hne i hi) (hdim i hi))

/-- Claim C7: classifying an unmodified copy of digit template `d` against
the ten-template set with any strictly positive error threshold returns
`d`, and the disagreement score of template `d` against itself is 0.  The
hypothesis `hdistinct` states that no earlier template coincides pixelwise
with template `d` resampled to its dimensions (true of any genuine digit
template set; without it the strict-minimum scan would keep the earlier
index). -/
theorem c7_template_selfmatch (samples : List Image) (d : Nat) (hd : d < 10)
    (hdim : ∀ i < 10, 0 < (samples.getD i default).rows ∧ 0 < (samples.getD i default).cols)
    (thres : ℚ) (hthres : 0 < thres)
    (hdistinct : ∀ i < d,
      errCount (resizeNN (samples.getD d default)
          (samples.getD i default).rows (samples.getD i default).cols)
        (samples.getD i default) ≠ 0) :
    detect_number_roi (samples.getD d default)
        ⟨0, 0, (samples.getD d default).cols, (samples.getD d default).rows⟩ samples thres
      = (d : ℤ) ∧
    errCount (resizeNN (samples.getD d default)
        (samples.getD d default).rows (samples.getD d default).cols)
      (samples.getD d default) = 0 := by
  have hbox : (⟨0, 0, (samples.getD d default).cols, (samples.getD d default).rows⟩ : Rect) =
      ⟨0, 0, (samples.getD d default).cols, (samples.getD d default).rows⟩ := rfl
  -- pixels of the crop of template d through the full box are the template pixels
  have hresize_congr : ∀ i : Nat,
      errCount (resizeNN (cropImg (samples.getD d default)
          ⟨0, 0, (samples.getD d default).cols, (samples.getD d default).rows⟩)
        (samples.getD i default).rows (samples.getD i default).cols) (samples.getD i default) =
      errCount (resizeNN (samples.getD d default)
        (samples.getD i default).rows (samples.getD i default).cols) (samples.getD i default) := by
    intro i
    apply errCount_congr
    intro iy _ ix _
    simp [resizeNN, cropImg]
  have herrzero : errCount (resizeNN (samples.getD d default)
      (samples.getD d default).rows (samples.getD d default).cols)
      (samples.getD d default) = 0 := by
    apply errCount_eq_zero
    intro iy hiy ix hix
    simp only [resizeNN]
    rw [Nat.mul_div_cancel iy (hdim d hd).1, Nat.mul_div_cancel ix (hdim d hd).2]
  refine ⟨?_, herrzero⟩
  have herr0 : errCount (resizeNN (cropImg (samples.getD d default)
      ⟨0, 0, (samples.getD d default).cols, (samples.getD d default).rows⟩)
      (samples.getD d default).rows (samples.getD d default).cols)
      (samples.getD d default) = 0 := by
    rw [hresize_congr d]; exact herrzero
  have hq : ((samples.getD d default).rows : ℚ) / ((samples.getD d default).cols : ℚ) ≠ 0 :=
    ne_of_gt (div_pos (by exact_mod_cast (hdim d hd).1) (by exact_mod_cast (hdim d hd).2))
  have hstepd : ∀ st : ℚ × ℤ, 0 < st.1 →
      roiStep (samples.getD d default)
        ⟨0, 0, (samples.getD d default).cols, (samples.getD d default).rows⟩ samples st d
        = (0, (d : ℤ)) := by
    intro st hst
    rw [roiStep]
    dsimp only
    rw [show (cropImg (samples.getD d default)
        ⟨0, 0, (samples.getD d default).cols, (samples.getD d default).rows⟩).rows =
        (samples.getD d default).rows from rfl]
    rw [show (cropImg (samples.getD d default)
        ⟨0, 0, (samples.getD d default).cols, (samples.getD d default).rows⟩).cols =
        (samples.getD d default).cols from rfl]
    rw [div_self hq, if_neg (by norm_num), herr0, Nat.cast_zero, zero_div, if_pos hst]
  have hsplit : List.range 10 = List.range' 0 d ++ d :: List.range' (d + 1) (9 - d) := by
    have h1 := List.range'_append 0 d (10 - d) 1
    rw [show 0 + 1 * d = d by omega, show 10 - d + d = 10 by omega,
        show 10 - d = (9 - d) + 1 by omega, List.range'_succ] at h1
    rw [List.range_eq_range', ← h1]
  rw [detect_number_roi, hsplit, List.foldl_append, List.foldl_cons]
  have hpre : 0 < ((List.range' 0 d).foldl
      (roiStep (samples.getD d default)
        ⟨0, 0, (samples.getD d default).cols, (samples.getD d default).rows⟩ samples)
      (thres, -1)).1 := by
    apply roiFold_pos _ _ _ d
    · intro i hi
      rw [hresize_congr i]
      exact hdistinct i hi
    · intro i hi
      exact hdim i (lt_trans hi hd)
    · intro i hi
      rw [List.mem_range'] at hi
      omega
    · exact hthres
  rw [hstepd _ hpre, roiFold_zero _ _ _ _ _ rfl]

/-- Claim C7, witness: the self-match theorem applied to the concrete
ten-template set `witTpls` at digit 1, with threshold 1/5. -/
theorem c7_witness :
    (0 : ℚ) < 1/5 ∧
    (detect_number_roi (witTpls.getD 1 default)
        ⟨0, 0, (witTpls.getD 1 default).cols, (witTpls.getD 1 default).rows⟩ witTpls (1/5)
      = ((1 : Nat) : ℤ) ∧
    errCount (resizeNN (witTpls.getD 1 default)
        (witTpls.getD 1 default).rows (witTpls.getD 1 default).cols)
      (witTpls.getD 1 default) = 0) :=
  ⟨by norm_num,
   c7_template_selfmatch witTpls 1 (by norm_num) (by decide) (1/5) (by norm_num) (by decide)⟩

/-- Every element of `mapInsert m kv` is `kv` or an element of `m`. -/
theorem mapInsert_mem (m : List (Nat × ℤ)) (kv x : Nat × ℤ)
    (hx : x ∈ mapInsert m kv) : x = kv ∨ x ∈ m := by
  induction m with
  | nil =>
    rw [mapInsert, List.mem_singleton] at hx
    exact Or.inl hx
  | cons p rest ih =>
    obtain ⟨k, v⟩ := p
    rw [mapInsert] at hx
    by_cases h1 : kv.1 < k
    · rw [if_pos h1] at hx
      rcases List.mem_cons.mp hx with hx | hx
      · exact Or.inl hx
      · exact Or.inr hx
    · rw [if_neg h1] at hx
      by_cases h2 : kv.1 = k
      · rw [if_pos h2] at hx
        exact Or.inr hx
      · rw [if_neg h2] at hx
        rcases List.mem_cons.mp hx with hx | hx
        · exact Or.inr (by simp [hx])
        · rcases ih hx with h | h
          · exact Or.inl h
          · exact Or.inr (List.mem_cons_of_mem _ h)

/-- Inserting a key not present in the map prepends it, up to permutation. -/
theorem mapInsert_perm (m : List (Nat × ℤ)) (kv : Nat × ℤ)
    (h : kv.1 ∉ m.map Prod.fst) : (mapInsert m kv).Perm (kv :: m) := by
  induction m with
  | nil => rw [mapInsert]
  | cons p rest ih =>
    obtain ⟨k, v⟩ := p
    rw [mapInsert]
    by_cases h1 : kv.1 < k
    · rw [if_pos h1]
    · rw [if_neg h1]
      have h2 : kv.1 ≠ k := by
        intro hco
        exact h (by simp [hco])
      rw [if_neg h2]
      have hrest : kv.1 ∉ rest.map Prod.fst := by
        intro hco
        exact h (by simp [hco])
      exact ((ih hrest).cons (k, v)).trans (List.Perm.swap kv (k, v) rest)

/-- `mapInsert` preserves strict sortedness by key. -/
theorem mapInsert_sorted (m : List (Nat × ℤ)) (kv : Nat × ℤ)
    (h : List.Sorted (fun a b : Nat × ℤ => a.1 < b.1) m) :
    List.Sorted (fun a b : Nat × ℤ => a.1 < b.1) (mapInsert m kv) := by
  induction m with
  | nil => simp [mapInsert]
  | cons p rest ih =>
    obtain ⟨k, v⟩ := p
    rw [List.sorted_cons] at h
    rw [mapInsert]
    by_cases h1 : kv.1 < k
    · rw [if_pos h1]
      refine List.sorted_cons.mpr ⟨?_, List.sorted_cons.mpr ⟨h.1, h.2⟩⟩
      intro b hb
      rcases List.mem_cons.mp hb with hb | hb
      · rw [hb]; exact h1
      · exact lt_trans h1 (h.1 b hb)
    · rw [if_neg h1]
      by_cases h2 : kv.1 = k
      · rw [if_pos h2]
        exact List.sorted_cons.mpr h
      · rw [if_neg h2]
        refine List.sorted_cons.mpr ⟨?_, ih h.2⟩
        intro b hb
        rcases mapInsert_mem rest kv b hb with hb | hb
        · rw [hb]; omega
        · exact h.1 b hb

/-- Folding fresh-keyed pairs through `mapInsert` from a sorted map yields a
sorted permutation of the map plus the pairs. -/
theorem foldl_mapInsert_spec (ps : List (Nat × ℤ)) :
    ∀ m : List (Nat × ℤ), List.Sorted (fun a b : Nat × ℤ => a.1 < b.1) m →
    ((m.map Prod.fst) ++ (ps.map Prod.fst)).Nodup →
    (ps.foldl mapInsert m).Perm (m ++ ps) ∧
    List.Sorted (fun a b : Nat × ℤ => a.1 < b.1) (ps.foldl mapInsert m) := by
  induction ps with
  | nil =>
    intro m hs _
    simp only [List.foldl_nil, List.append_nil]
    exact ⟨List.Perm.refl _, hs⟩
  | cons p ps ih =>
    intro m hs hn
    rw [List.foldl_cons]
    have hfresh : p.1 ∉ m.map Prod.fst := by
      rw [List.nodup_append] at hn
      intro hmem
      exact hn.2.2 hmem (by simp)
    have hperm := mapInsert_perm m p hfresh
    have hsorted := mapInsert_sorted m p hs
    have hkeys : ((mapInsert m p).map Prod.fst).Perm (p.1 :: m.map Prod.fst) := by
      have := hperm.map Prod.fst
      simpa using this
    have hn2 : (((mapInsert m p).map Prod.fst) ++ (ps.map Prod.fst)).Nodup := by
      have hmid : (m.map Prod.fst ++ p.1 :: ps.map Prod.fst).Perm
          (p.1 :: (m.map Prod.fst ++ ps.map Prod.fst)) := List.perm_middle
      have hn3 : (p.1 :: (m.map Prod.fst ++ ps.map Prod.fst)).Nodup := by
        have hps : (m.map Prod.fst ++ (p :: ps).map Prod.fst).Nodup := hn
        simp only [List.map_cons] at hps
        exact hmid.nodup hps
      have hall : (((mapInsert m p).map Prod.fst) ++ (ps.map Prod.fst)).Perm
          (p.1 :: (m.map Prod.fst ++ ps.map Prod.fst)) :=
        hkeys.append_right (ps.map Prod.fst)
      exact hall.symm.nodup hn3
    obtain ⟨ih1, ih2⟩ := ih (mapInsert m p) hsorted hn2
    refine ⟨?_, ih2⟩
    have step2 : ((mapInsert m p) ++ ps).Perm (p :: (m ++ ps)) := hperm.append_right ps
    have step3 : (p :: (m ++ ps)).Perm (m ++ p :: ps) := List.perm_middle.symm
    exact ih1.trans (step2.trans step3)

/-- The contour loop of `detect_number_fixed` is the `mapInsert` fold of the
recognized `(x, digit)` pairs. -/
theorem detect_fixed_fusion (src : Image) (samples : List Image) (thres : ℚ)
    (sr : ℚ × ℚ × ℚ × ℚ) (boxes : List Rect) :
    ∀ m, boxes.foldl (fixedStep src samples thres sr) m =
      (recognizedPairs src boxes samples thres sr).foldl mapInsert m := by
  induction boxes with
  | nil => intro m; rfl
  | cons b bs ih =>
    intro m
    rw [List.foldl_cons]
    by_cases h1 : sizeOk src b sr = true
    · by_cases h2 : detect_number_roi src b samples thres ≠ -1
      · have hrec : recognizedPairs src (b :: bs) samples thres sr =
            (b.x, detect_number_roi src b samples thres) ::
              recognizedPairs src bs samples thres sr := by
          simp [recognizedPairs, List.filterMap_cons, h1, h2]
        have hstep : fixedStep src samples thres sr m b =
            mapInsert m (b.x, detect_number_roi src b samples thres) := by
          simp [fixedStep, h1, h2]
        rw [hrec, List.foldl_cons, hstep]
        exact ih _
      · push_neg at h2
        have hrec : recognizedPairs src (b :: bs) samples thres sr =
            recognizedPairs src bs samples thres sr := by
          simp [recognizedPairs, List.filterMap_cons, h1, h2]
        have hstep : fixedStep src samples thres sr m b = m := by
          simp [fixedStep, h1, h2]
        rw [hrec, hstep]
        exact ih _
    · have hrec : recognizedPairs src (b :: bs) samples thres sr =
          recognizedPairs src bs samples thres sr := by
        simp [recognizedPairs, List.filterMap_cons, h1]
      have hstep : fixedStep src samples thres sr m b = m := by
        simp [fixedStep, h1]
      rw [hrec, hstep]
      exact ih _

/-- Claim C9: for fixed-coordinate icons, `detect_number_fixed` composes
the recognized digits into one integer in ascending x order (the map fold
is over a strictly x-sorted permutation of the recognized `(x, digit)`
pairs, each digit multiplying the accumulator by 10, so the smallest x is
the most significant digit); it returns 0 when nothing is recognized, and
a single recognized digit 0 also yields 0, so a returned 0 is
indistinguishable from a genuine reading of 0.  The hypothesis rules out
two recognized regions sharing an x coordinate (where `std::map::insert`
would drop the later one). -/
theorem c9_fixed_composition (src : Image) (boxes : List Rect) (samples : List Image)
    (thres : ℚ) (sr : ℚ × ℚ × ℚ × ℚ)
    (hnd : ((recognizedPairs src boxes samples thres sr).map Prod.fst).Nodup) :
    detect_number_fixed src boxes samples thres sr =
      ((recognizedPairs src boxes samples thres sr).foldl mapInsert []).foldl
        (fun cooldown kv => cooldown * 10 + kv.2) 0 ∧
    ((recognizedPairs src boxes samples thres sr).foldl mapInsert []).Perm
      (recognizedPairs src boxes samples thres sr) ∧
    List.Sorted (fun a b : Nat × ℤ => a.1 < b.1)
      ((recognizedPairs src boxes samples thres sr).foldl mapInsert []) ∧
    (recognizedPairs src boxes samples thres sr = [] →
      detect_number_fixed src boxes samples thres sr = 0) ∧
    (∀ x : Nat, recognizedPairs src boxes samples thres sr = [(x, 0)] →
      detect_number_fixed src boxes samples thres sr = 0) := by
  have hfold := foldl_mapInsert_spec (recognizedPairs src boxes samples thres sr) []
    (by simp) (by simpa using hnd)
  have hmain : detect_number_fixed src boxes samples thres sr =
      ((recognizedPairs src boxes samples thres sr).foldl mapInsert []).foldl
        (fun cooldown kv => cooldown * 10 + kv.2) 0 := by
    rw [detect_number_fixed, detect_fixed_fusion]
  refine ⟨hmain, by simpa using hfold.1, hfold.2, ?_, ?_⟩
  · intro h
    rw [hmain, h]
    rfl
  · intro x h
    rw [hmain, h]
    simp [mapInsert]

set_option maxRecDepth 100000 in
/-- Claim C9, witness: applied to the concrete binarized image `witSrc`
with contour boxes in descending-x order, explicit size range (1,1,4,4) and
threshold 1/5: the digits 3 (at x = 0) and 1 (at x = 4) compose to 31. -/
theorem c9_witness :
    ((recognizedPairs witSrc witBoxes witTpls (1/5) (1, 1, 4, 4)).map Prod.fst).Nodup ∧
    detect_number_fixed witSrc witBoxes witTpls (1/5) (1, 1, 4, 4) = 31 := by
  refine ⟨of_decide_eq_true (by with_unfolding_all rfl), ?_⟩
  have h := c9_fixed_composition witSrc witBoxes witTpls (1/5) (1, 1, 4, 4)
    (of_decide_eq_true (by with_unfolding_all rfl))
  rw [h.1]
  exact of_decide_eq_true (by with_unfolding_all rfl)

/-- Claim C1, counterexample: composing the digit readings
(x=10,y=5,digit=3) and (x=20,y=5,digit=1) does not yield 13 anchored at
(20,5).  The adjacency test passes, but line 424 gives the tens digit to
the reading with the smaller x coordinate, so the composed value is 31;
that exceeds the level cap 15, the pair is rejected, and both readings fall
through as independent single digits. -/
theorem c1_counterexample :
    composeReadings [((10, 5), 3), ((20, 5), 1)] = [(3, (10, 5)), (1, (20, 5))] ∧
    ∀ r ∈ composeReadings [((10, 5), 3), ((20, 5), 1)], r.1 ≠ 13 := by
  decide

/-- Claim C1, amended: two digit readings whose vertical coordinates differ
by fewer than 3 pixels and whose horizontal separation is strictly between
8 and 15 pixels combine — provided the composed value is at most 15 — into
one reading whose tens digit comes from the reading with the SMALLER
x-coordinate and whose units digit comes from the larger-x reading, anchored
at the rightmost point; so composing (x=10,y=5,digit=1) with
(x=20,y=5,digit=3) yields 13 anchored at (20,5). -/
theorem c1_amended (p1 p2 : ℤ × ℤ) (n1 n2 : ℤ)
    (hcond : pairCond p1 p2 = true)
    (hle : composeLevel p1 n1 p2 n2 ≤ 15) :
    composeReadings [(p1, n1), (p2, n2)] =
      [(composeLevel p1 n1 p2 n2, composeAnchor p1 p2)] ∧
    (p1.1 > p2.1 → composeLevel p1 n1 p2 n2 = 10 * n2 + n1 ∧ composeAnchor p1 p2 = p1) ∧
    (p2.1 > p1.1 → composeLevel p1 n1 p2 n2 = 10 * n1 + n2 ∧ composeAnchor p1 p2 = p2) := by
  refine ⟨?_, fun h => ?_, fun h => ?_⟩
  · simp [composeReadings, composeGoAux, findPairAux, hcond, hle]
  · simp only [composeLevel, composeAnchor, if_pos h]
    exact ⟨by ring, trivial⟩
  · simp only [composeLevel, composeAnchor, if_neg (by omega : ¬p1.1 > p2.1)]
    exact ⟨by ring, trivial⟩

/-- Claim C1, witness: the amended rule applied to the concrete pair
(x=10,y=5,digit=1), (x=20,y=5,digit=3), which composes to 13 anchored at
the rightmost point (20,5). -/
theorem c1_amended_witness :
    pairCond (10, 5) (20, 5) = true ∧ composeLevel (10, 5) 1 (20, 5) 3 ≤ 15 ∧
    composeReadings [((10, 5), 1), ((20, 5), 3)] = [(13, (20, 5))] := by
  refine ⟨by decide, by decide, ?_⟩
  have h := c1_amended (10, 5) (20, 5) 1 3 (by decide) (by decide)
  rw [h.1]; decide

/-- Claim C2: evaluation of `delete_inactive_heroes` at the failing input.
With two entities that both satisfy the removal condition (appearances 1,
last seen at 0, evicted at ts=1500 with window 1000 and floor 5), the
source erases the first but — because it erases inside an index loop —
skips and retains the second, refuting the "if and only if" removal claim.
The single-entity removal and the appearances-10 retention behave as the
claim states. -/
theorem c2_eviction_skip :
    (delete_inactive_heroes 1500 1000 5
        ⟨[⟨0, (0, 0), 1, 0, 1⟩, ⟨1, (50, 50), 1, 0, 1⟩], 2, true⟩).heroes_list
      = [⟨1, (50, 50), 1, 0, 1⟩] ∧
    ((1500 : ℤ) - 0 > 1000 ∧ (1 : ℤ) < 5) ∧
    (delete_inactive_heroes 1500 1000 5
        ⟨[⟨0, (0, 0), 1, 0, 1⟩], 1, true⟩).heroes_list = [] ∧
    (delete_inactive_heroes 1500 1000 5
        ⟨[⟨0, (0, 0), 1, 0, 10⟩], 1, true⟩).heroes_list = [⟨0, (0, 0), 1, 0, 10⟩] := by
  decide

/-- Claim C3: the reading sequence (100,100)/5 at t=0, (100,100)/5 at
t=500, (102,101)/6 at t=1000, (102,101)/6 at t=4200, starting from the
fresh tracker, produces: identity 0 with appearances 1; a merge raising
appearances to 2; a level-bump merge to level 6 (appearances 3); and a new
identity 1 at t=4200 because 4200 − 1000 > 3000, even though the position
matches. -/
theorem c3_trace :
    c3_s1.heroes_list = [⟨0, (100, 100), 5, 0, 1⟩] ∧
    c3_s2.heroes_list = [⟨0, (100, 100), 5, 500, 2⟩] ∧
    c3_s3.heroes_list = [⟨0, (102, 101), 6, 1000, 3⟩] ∧
    c3_s4.heroes_list = [⟨0, (102, 101), 6, 1000, 3⟩, ⟨1, (102, 101), 6, 4200, 1⟩] := by
  decide

/-- Claim C4: evaluation at the failing input.  `std::accumulate` is called
with the `int` initial value `0` (line 242), so every partial sum is
truncated to an integer.  Two recorded distances of `sqrt 2` (center offset
(1,1) from the axis) therefore produce the mean 1, whereas the arithmetic
mean of the recorded distances is `sqrt 2 ≠ 1`. -/
theorem c4_truncated_mean :
    (estimate_js_axis_status [Real.sqrt 2, Real.sqrt 2]).map Prod.fst = some 1 ∧
    (Real.sqrt 2 + Real.sqrt 2) / 2 ≠ 1 := by
  have hnn : (0 : ℝ) ≤ Real.sqrt 2 := Real.sqrt_nonneg 2
  have hsq : Real.sqrt 2 ^ 2 = 2 := Real.sq_sqrt (by norm_num)
  have h1 : (1 : ℝ) ≤ Real.sqrt 2 := by nlinarith
  have h2 : Real.sqrt 2 < 2 := by nlinarith
  have t1 : cppTrunc (Real.sqrt 2) = 1 := by
    simp only [cppTrunc, if_pos hnn]
    exact Int.floor_eq_iff.mpr (by constructor <;> push_cast <;> linarith)
  have t2 : cppTrunc (1 + Real.sqrt 2) = 2 := by
    simp only [cppTrunc, if_pos (by linarith : (0 : ℝ) ≤ 1 + Real.sqrt 2)]
    exact Int.floor_eq_iff.mpr (by constructor <;> push_cast <;> linarith)
  have hacc : cppAccumulateInt [Real.sqrt 2, Real.sqrt 2] = 2 := by
    simp [cppAccumulateInt, t1, t2]
  constructor
  · simp [estimate_js_axis_status, hacc]
  · intro hco
    have heq : Real.sqrt 2 = 1 := by linarith
    nlinarith

/-- Claim C5, counterexample: with exactly one recorded sample the source
does not return early (the guard at line 239 only checks emptiness), so it
does produce a standard-deviation value, reaching the division whose
divisor `size() - 1` is zero. -/
theorem c5_counterexample :
    (estimate_js_axis_status [(3 : ℝ)]).isSome = true ∧ [(3 : ℝ)].length - 1 = 0 := by
  constructor
  · simp [estimate_js_axis_status]
  · rfl

/-- Claim C5, amended: the statistic operation leaves its out-parameters
unwritten exactly when the recorded distance list is empty; with one or
more samples it always writes values, performing the `n - 1` division even
for a single sample (where the divisor is zero and the double result is
not finite). -/
theorem c5_amended (dist_list : List ℝ) :
    estimate_js_axis_status dist_list = none ↔ dist_list = [] := by
  cases dist_list <;> simp [estimate_js_axis_status]

/-- Claim C6: `estimate_joystick_angle` returns the sentinel 666 exactly
when the external circle detection returned no circles; otherwise it
returns `atan2(axis.y - center.y, center.x - axis.x) * 180 / 3.14159265`
computed from the first circle (center = region corner + circle offset) and
appends exactly one center-to-axis euclidean distance sample to the
recorded list. -/
theorem c6_sentinel_iff (c : ℤ × ℤ) (rest : List (ℤ × ℤ)) (circles : List (ℤ × ℤ))
    (dist_list : List ℝ) :
    estimate_joystick_angle [] dist_list = (666, dist_list) ∧
    estimate_joystick_angle (c :: rest) dist_list =
      (atan2 (((joystick_axis.2 - (joystick_lu.2 + c.2) : ℤ) : ℝ))
             (((joystick_lu.1 + c.1 - joystick_axis.1 : ℤ) : ℝ)) * 180 / 3.14159265,
       dist_list ++ [Real.sqrt ((((joystick_lu.1 + c.1 - joystick_axis.1 : ℤ) : ℝ)) ^ 2 +
                      (((joystick_lu.2 + c.2 - joystick_axis.2 : ℤ) : ℝ)) ^ 2)]) ∧
    ((estimate_joystick_angle circles dist_list).1 = 666 ↔ circles = []) ∧
    (estimate_joystick_angle (c :: rest) dist_list).2.length = dist_list.length + 1 := by
  refine ⟨by norm_num [estimate_joystick_angle], rfl, ?_, by simp [estimate_joystick_angle]⟩
  cases circles with
  | nil => norm_num [estimate_joystick_angle]
  | cons d ds =>
    simp only [estimate_joystick_angle, List.cons_ne_nil, iff_false]
    exact atan2_deg_ne_sentinel _ _

/-- Claim C10: before `is_heroes_list_initialized_` is set at the end of
the first `track_hero` call, `assign_hero` unconditionally appends a fresh
entity with appearances 1 and bumps the id counter, leaving the flag
untouched; in particular two identical readings inside the first frame
create the two distinct identities 0 and 1. -/
theorem c10_uninitialized_creates (t : Tracker)
    (h : t.is_heroes_list_initialized = false)
    (level : ℤ) (position : ℤ × ℤ) (ts : ℤ) :
    (assign_hero level position ts t).1 =
      { t with heroes_list := t.heroes_list ++ [⟨t.hero_id_, position, level, ts, 1⟩],
               hero_id_ := t.hero_id_ + 1 } ∧
    (assign_hero level position ts t).1.is_heroes_list_initialized = false ∧
    ((assign_hero 5 (100, 100) 0 (assign_hero 5 (100, 100) 0 initialTracker).1).1.heroes_list.map
        TrackedHero.hero_id = [0, 1]) := by
  refine ⟨?_, ?_, by decide⟩ <;> simp [assign_hero, createHero, h]

/-- The nearest-hero scan only returns indices below `start + length`. -/
theorem findNearestAux_lt (pos : ℤ × ℤ) (l : List TrackedHero) :
    ∀ (i : Nat) (dmin : ℤ) (best : Option Nat),
      (∀ j, best = some j → j < i) →
      ∀ j, findNearestAux pos l i dmin best = some j → j < i + l.length := by
  induction l with
  | nil =>
    intro i dmin best hbest j hj
    rw [findNearestAux] at hj
    exact Nat.lt_of_lt_of_le (hbest j hj) (by omega)
  | cons h rest ih =>
    intro i dmin best hbest j hj
    rw [findNearestAux] at hj
    by_cases hc : distSq pos h.position < dmin
    · rw [if_pos hc] at hj
      have hres := ih (i + 1) (distSq pos h.position) (some i)
        (fun k hk => by rw [Option.some.injEq] at hk; omega) j hj
      simp only [List.length_cons]
      omega
    · rw [if_neg hc] at hj
      have hres := ih (i + 1) dmin best (fun k hk => by have := hbest k hk; omega) j hj
      simp only [List.length_cons]
      omega

/-- `i_min` of `assign_hero` is a valid index of `heroes_list_`. -/
theorem findNearest_lt (pos : ℤ × ℤ) (l : List TrackedHero) (j : Nat)
    (h : findNearest pos l = some j) : j < l.length := by
  have hres := findNearestAux_lt pos l 0 400 none (by intro k hk; cases hk) j h
  omega

/-- Updating a slot with a record carrying the same id leaves the id list
unchanged. -/
theorem map_hero_id_set (l : List TrackedHero) (i : Nat) (h2 : TrackedHero)
    (hid : h2.hero_id = (l.getD i default).hero_id) (hlt : i < l.length) :
    (l.set i h2).map TrackedHero.hero_id = l.map TrackedHero.hero_id := by
  induction l generalizing i with
  | nil => simp at hlt
  | cons a as ih =>
    cases i with
    | zero =>
      simp only [List.getD_cons_zero] at hid
      simp [List.set, hid]
    | succ n =>
      simp only [List.getD_cons_succ] at hid
      simp only [List.set, List.map_cons, List.cons.injEq]
      exact ⟨trivial, ih n hid (by simpa using hlt)⟩

/-- The eviction loop only ever drops elements (in particular it never
reorders or duplicates ids). -/
theorem pruneHeroes_sublist (ts it na : ℤ) (l : List TrackedHero) :
    List.Sublist (pruneHeroes ts it na l) l := by
  have key : ∀ (n : Nat) (l : List TrackedHero), l.length ≤ n →
      List.Sublist (pruneHeroes ts it na l) l := by
    intro n
    induction n with
    | zero =>
      intro l hl
      cases l with
      | nil => simp [pruneHeroes]
      | cons a as => simp at hl
    | succ n ih =>
      intro l hl
      match l with
      | [] => simp [pruneHeroes]
      | [e] =>
        rw [pruneHeroes]
        split
        · exact List.nil_sublist _
        · exact List.Sublist.refl _
      | e :: f :: rest =>
        rw [pruneHeroes]
        have hr : rest.length ≤ n := by simp at hl; omega
        have hfr : (f :: rest).length ≤ n := by simp at hl; simp; omega
        split
        · exact ((ih rest hr).cons₂ f).cons e
        · exact (ih (f :: rest) hfr).cons₂ e
  exact key l.length l le_rfl

/-- Creating a hero preserves id uniqueness and the id bound, and bumps the
counter handing out the old value. -/
theorem createHero_spec (level : ℤ) (position : ℤ × ℤ) (ts : ℤ) (t : Tracker)
    (hnd : (t.heroes_list.map TrackedHero.hero_id).Nodup)
    (hbd : ∀ h ∈ t.heroes_list, h.hero_id < t.hero_id_) :
    ((createHero level position ts t).1.heroes_list.map TrackedHero.hero_id).Nodup ∧
    (∀ h ∈ (createHero level position ts t).1.heroes_list,
      h.hero_id < (createHero level position ts t).1.hero_id_) ∧
    (createHero level position ts t).1.hero_id_ = t.hero_id_ + 1 := by
  refine ⟨?_, ?_, rfl⟩
  · rw [createHero]
    dsimp only
    rw [List.map_append, List.nodup_append]
    refine ⟨hnd, by simp, ?_⟩
    intro a ha hb
    simp only [List.map_cons, List.map_nil, List.mem_singleton] at hb
    obtain ⟨h, hm, hid⟩ := List.mem_map.mp ha
    have := hbd h hm
    omega
  · intro h hm
    rw [createHero] at hm ⊢
    dsimp only at hm ⊢
    rcases List.mem_append.mp hm with hm | hm
    · have := hbd h hm
      omega
    · rw [List.mem_singleton] at hm
      rw [hm]
      exact Nat.lt_succ_self _

/-- Updating the matched slot (merge branches of `assign_hero`) preserves id
uniqueness and the id bound. -/
theorem set_hero_spec (t : Tracker) (i : Nat) (h2 : TrackedHero)
    (hlt : i < t.heroes_list.length)
    (hid : h2.hero_id = (t.heroes_list.getD i default).hero_id)
    (hnd : (t.heroes_list.map TrackedHero.hero_id).Nodup)
    (hbd : ∀ h ∈ t.heroes_list, h.hero_id < t.hero_id_) :
    ((t.heroes_list.set i h2).map TrackedHero.hero_id).Nodup ∧
    ∀ h ∈ t.heroes_list.set i h2, h.hero_id < t.hero_id_ := by
  refine ⟨by rw [map_hero_id_set _ _ _ hid hlt]; exact hnd, ?_⟩
  intro h hm
  rcases List.mem_or_eq_of_mem_set hm with hm | hm
  · exact hbd h hm
  · rw [hm, hid, List.getD_eq_getElem t.heroes_list default hlt]
    exact hbd _ (List.getElem_mem hlt)

/-- `assign_hero` preserves id uniqueness and the id bound, and either
creates (bumping the counter by one) or merges (leaving it unchanged). -/
theorem assign_hero_spec (level : ℤ) (position : ℤ × ℤ) (ts : ℤ) (t : Tracker)
    (hnd : (t.heroes_list.map TrackedHero.hero_id).Nodup)
    (hbd : ∀ h ∈ t.heroes_list, h.hero_id < t.hero_id_) :
    (((assign_hero level position ts t).1.heroes_list.map TrackedHero.hero_id).Nodup ∧
     ∀ h ∈ (assign_hero level position ts t).1.heroes_list,
       h.hero_id < (assign_hero level position ts t).1.hero_id_) ∧
    ((assign_hero level position ts t).1.hero_id_ = t.hero_id_ + 1 ∨
     (assign_hero level position ts t).1.hero_id_ = t.hero_id_) := by
  rw [assign_hero]
  by_cases hinit : t.is_heroes_list_initialized = false
  · rw [if_pos hinit]
    obtain ⟨h1, h2, h3⟩ := createHero_spec level position ts t hnd hbd
    exact ⟨⟨h1, h2⟩, Or.inl h3⟩
  · rw [if_neg hinit]
    cases hfn : findNearest position t.heroes_list with
    | none =>
      obtain ⟨h1, h2, h3⟩ := createHero_spec level position ts t hnd hbd
      exact ⟨⟨h1, h2⟩, Or.inl h3⟩
    | some i =>
      have hlt := findNearest_lt position t.heroes_list i hfn
      dsimp only
      split
      · obtain ⟨h1, h2, h3⟩ := createHero_spec level position ts t hnd hbd
        exact ⟨⟨h1, h2⟩, Or.inl h3⟩
      · split
        · obtain ⟨h1, h2, h3⟩ := createHero_spec level position ts t hnd hbd
          exact ⟨⟨h1, h2⟩, Or.inl h3⟩
        · split
          · obtain ⟨h1, h2⟩ := set_hero_spec t i
              ⟨(t.heroes_list.getD i default).hero_id, position,
               (t.heroes_list.getD i default).level, ts,
               (t.heroes_list.getD i default).appearances + 1⟩ hlt rfl hnd hbd
            exact ⟨⟨h1, h2⟩, Or.inr rfl⟩
          · split
            · obtain ⟨h1, h2⟩ := set_hero_spec t i
                ⟨(t.heroes_list.getD i default).hero_id, position, level, ts,
                 (t.heroes_list.getD i default).appearances + 1⟩ hlt rfl hnd hbd
              exact ⟨⟨h1, h2⟩, Or.inr rfl⟩
            · obtain ⟨h1, h2, h3⟩ := createHero_spec level position ts t hnd hbd
              exact ⟨⟨h1, h2⟩, Or.inl h3⟩

/-- Eviction preserves id uniqueness and the id bound. -/
theorem evict_spec (ts it na : ℤ) (t : Tracker)
    (hnd : (t.heroes_list.map TrackedHero.hero_id).Nodup)
    (hbd : ∀ h ∈ t.heroes_list, h.hero_id < t.hero_id_) :
    ((delete_inactive_heroes ts it na t).heroes_list.map TrackedHero.hero_id).Nodup ∧
    ∀ h ∈ (delete_inactive_heroes ts it na t).heroes_list,
      h.hero_id < (delete_inactive_heroes ts it na t).hero_id_ := by
  have hsub := pruneHeroes_sublist ts it na t.heroes_list
  constructor
  · exact List.Nodup.sublist (List.Sublist.map TrackedHero.hero_id hsub) hnd
  · intro h hm
    exact hbd h (hsub.subset hm)

/-- One tracker event preserves the id invariants; it is a creation, handing
out the old counter, exactly when the counter is bumped. -/
theorem applyStep_spec (s : Step) (t : Tracker)
    (hnd : (t.heroes_list.map TrackedHero.hero_id).Nodup)
    (hbd : ∀ h ∈ t.heroes_list, h.hero_id < t.hero_id_) :
    (((applyStep s t).heroes_list.map TrackedHero.hero_id).Nodup ∧
     ∀ h ∈ (applyStep s t).heroes_list, h.hero_id < (applyStep s t).hero_id_) ∧
    (((applyStep s t).hero_id_ = t.hero_id_ + 1 ∧ stepTrace s t = [t.hero_id_]) ∨
     ((applyStep s t).hero_id_ = t.hero_id_ ∧ stepTrace s t = [])) := by
  cases s with
  | assign l p ts =>
    obtain ⟨hinv, hdich⟩ := assign_hero_spec l p ts t hnd hbd
    refine ⟨hinv, ?_⟩
    rcases hdich with hc | hc
    · refine Or.inl ⟨hc, ?_⟩
      rw [stepTrace]
      rw [show (applyStep (Step.assign l p ts) t).hero_id_ =
        (assign_hero l p ts t).1.hero_id_ from rfl]
      rw [if_pos hc]
    · refine Or.inr ⟨hc, ?_⟩
      rw [stepTrace, if_neg]
      rw [show (applyStep (Step.assign l p ts) t).hero_id_ =
        (assign_hero l p ts t).1.hero_id_ from rfl, hc]
      omega
  | evict ts it na =>
    obtain ⟨h1, h2⟩ := evict_spec ts it na t hnd hbd
    refine ⟨⟨h1, h2⟩, Or.inr ⟨rfl, ?_⟩⟩
    rw [stepTrace, if_neg]
    rw [show (applyStep (Step.evict ts it na) t).hero_id_ = t.hero_id_ from rfl]
    omega
  | endFrame =>
    refine ⟨⟨hnd, hbd⟩, Or.inr ⟨rfl, ?_⟩⟩
    rw [stepTrace, if_neg]
    rw [show (applyStep Step.endFrame t).hero_id_ = t.hero_id_ from rfl]
    omega

/-- Running any event sequence preserves the id invariants; the created
identities are exactly the consecutive counter values starting at the
initial counter. -/
theorem runAux_spec (steps : List Step) : ∀ t : Tracker,
    (t.heroes_list.map TrackedHero.hero_id).Nodup →
    (∀ h ∈ t.heroes_list, h.hero_id < t.hero_id_) →
    (((runAux steps t).1.heroes_list.map TrackedHero.hero_id).Nodup ∧
     ∀ h ∈ (runAux steps t).1.heroes_list,
       h.hero_id < (runAux steps t).1.hero_id_) ∧
    (runAux steps t).1.hero_id_ = t.hero_id_ + (runAux steps t).2.length ∧
    (runAux steps t).2 = List.range' t.hero_id_ (runAux steps t).2.length := by
  induction steps with
  | nil =>
    intro t hnd hbd
    exact ⟨⟨hnd, hbd⟩, by simp [runAux], by simp [runAux]⟩
  | cons s rest ih =>
    intro t hnd hbd
    obtain ⟨⟨hnd1, hbd1⟩, hdich⟩ := applyStep_spec s t hnd hbd
    obtain ⟨hinv2, hcnt2, htr2⟩ := ih (applyStep s t) hnd1 hbd1
    rw [runAux]
    dsimp only
    refine ⟨hinv2, ?_, ?_⟩
    · rcases hdich with ⟨hc, htr⟩ | ⟨hc, htr⟩ <;>
        rw [htr] <;>
        simp only [List.singleton_append, List.length_cons, List.nil_append] <;>
        omega
    · rcases hdich with ⟨hc, htr⟩ | ⟨hc, htr⟩
      · rw [htr]
        simp only [List.singleton_append, List.length_cons]
        rw [List.range'_succ]
        congr 1
        rw [← hc]
        exact htr2
      · rw [htr]
        simp only [List.nil_append]
        rw [← hc]
        exact htr2

/-- Claim C8: across any sequence of tracker events on one fresh tracker
(assign calls, evictions, frame boundaries), the identities handed out to
successively created entities are exactly 0, 1, 2, ... in creation order —
so each identity is assigned exactly once, the sequence is strictly
increasing, and an identity is never reused after its entity is evicted
(every later creation hands out a strictly larger value); moreover the ids
present in the tracked set are pairwise distinct and all below the
counter. -/
theorem c8_identity_invariants (steps : List Step) :
    (runTracker steps).2 = List.range (runTracker steps).2.length ∧
    ((runTracker steps).1.heroes_list.map TrackedHero.hero_id).Nodup ∧
    ∀ h ∈ (runTracker steps).1.heroes_list,
      h.hero_id < (runTracker steps).1.hero_id_ := by
  obtain ⟨⟨hnd, hbd⟩, hcnt, htr⟩ := runAux_spec steps initialTracker
    (by simp [initialTracker]) (by simp [initialTracker])
  refine ⟨?_, hnd, hbd⟩
  rw [List.range_eq_range']
  exact htr

/-- Claim C10, witness: the general statement applied to the fresh tracker
and the reading (level 5, position (100,100), timestamp 0). -/
theorem c10_witness :
    (assign_hero 5 (100, 100) 0 initialTracker).1 =
      { initialTracker with
          heroes_list := initialTracker.heroes_list ++
            [⟨initialTracker.hero_id_, (100, 100), 5, 0, 1⟩],
          hero_id_ := initialTracker.hero_id_ + 1 } ∧
    (assign_hero 5 (100, 100) 0 initialTracker).1.is_heroes_list_initialized = false ∧
    ((assign_hero 5 (100, 100) 0 (assign_hero 5 (100, 100) 0 initialTracker).1).1.heroes_list.map
        TrackedHero.hero_id = [0, 1]) :=
  c10_uninitialized_creates initialTracker rfl 5 (100, 100) 0

end GameVideo
